import Mathlib

/-!
Shallow embedding of the per-key pooling cache in
`control-plane/pkg/kafka/clientpool/pool_cache.go`.

Modelling conventions:

* The Go channels `available` (a bounded FIFO of `*cacheValue`) and
  `capacity` (a bounded channel of `int` used as a counting semaphore) are
  modelled as Lean lists whose head is the front of the channel: a receive
  takes the head, a send appends to the tail.  Channel-buffer bounds are
  not built into the list type; boundedness facts are stated as explicit
  predicates where a claim needs them.
* `V` values are modelled as `Nat` identifiers; the factory closure
  `CreateNewValue[V]` is modelled as a function from its own invocation
  count to `Except Err Nat`, so a factory can fail on some calls and
  succeed on others (as a real closure over network state can).  The
  entry records how many times its stored factory has been invoked.
* Cells currently handed out to callers exist in Go only as pointers held
  by those callers; the model tracks them in the ghost field `inUse` so
  that the capacity-conservation sum can be stated.
* Blocking is modelled with `Option`: `none` means the Go operation would
  block forever at this point (e.g. a select with no ready alternative,
  or consuming a ticket from an empty zero-capacity channel).
* The non-deterministic three-way `select` in `getValue` is resolved by an
  explicit `GetBranch` argument; a branch that is not ready yields `none`.
* The periodic background sweep trigger (`time.Since(c.lastChecked)` in
  `AddAndAcquire`/`Get`) spawns an asynchronous goroutine and does not
  affect the synchronous result of the call; it is not modelled.
  `cleanupValues` itself, which the sweep invokes per entry, is modelled.
* Timestamps are `Nat` nanoseconds; `time.Since(t)` at time `now` is
  `now - t` (truncated `Nat` subtraction agrees with the Go comparison
  against a positive constant whenever `now ≥ t`).
-/

abbrev Err := Nat

/-- A factory (`CreateNewValue[V]`): given the number of times it has been
invoked so far, it either produces a fresh value or fails. -/
abbrev Factory := Nat → Except Err Nat

/-- `cacheValue` (pool_cache.go:41-46): one resource instance plus its
bookkeeping.  The exclusivity mutex and the `returnChan` pointer are not
data here: a cell's return channel is the `available` queue of the entry
it belongs to, and lock ordering is modelled separately by an event trace. -/
structure CacheValue where
  val : Nat
  lastUsed : Nat
  deriving DecidableEq, Repr

/-- `cacheEntry` (pool_cache.go:32-39).  `inUse` is ghost state: the cells
currently held by callers (Go keeps them only as pointers on the caller
side). -/
structure CacheEntry where
  available : List CacheValue
  capacity : List Nat
  maxCapacity : Nat
  createValue : Factory
  calls : Nat
  inUse : List CacheValue

/-- `CachePool` (pool_cache.go:26-30): the map `K → *cacheEntry`, with
`K = Nat`, as an association list with map-lookup semantics. -/
structure CachePool where
  entries : List (Nat × CacheEntry)

/-- Go `time.Minute * 30` in nanoseconds (pool_cache.go:301). -/
def idleTTL : Nat := 30 * 60 * 1000000000

/-- The three alternatives of the `select` in `getValue`
(pool_cache.go:249-264). -/
inductive GetBranch where
  | ctxDone
  | fromAvailable
  | fromCapacity
  deriving DecidableEq, Repr

/-- Which select alternatives are ready to fire (Go select semantics: a
case may fire only when its communication is ready). -/
def branchReady (ctxCancelled : Bool) (ce : CacheEntry) : GetBranch → Bool
  | .ctxDone => ctxCancelled
  | .fromAvailable => !ce.available.isEmpty
  | .fromCapacity => !ce.capacity.isEmpty

/-- `createCacheValue` (pool_cache.go:267-280): invoke the stored factory;
on success wrap the fresh value in a cell whose return channel is the
entry's `available` queue and whose `lastUsed` is the zero time. -/
def createCacheValue (ce : CacheEntry) : CacheEntry × Except Err CacheValue :=
  match ce.createValue ce.calls with
  | .error e => ({ ce with calls := ce.calls + 1 }, .error e)
  | .ok v => ({ ce with calls := ce.calls + 1 }, .ok ⟨v, 0⟩)

/-- `cacheEntry.getValue` (pool_cache.go:243-265).  The chosen branch must
be ready; otherwise the call would block (`none`).  `acquireFromCache`
(pool_cache.go:341-344) is inlined: it takes the cell's exclusivity lock
and stamps `lastUsed := now`; the ghost `inUse` list records the hand-out. -/
def getValue (now : Nat) (ctxCancelled : Bool) (ctxErr : Err) (br : GetBranch)
    (ce : CacheEntry) : Option (CacheEntry × Except Err Nat) :=
  match br with
  | .ctxDone =>
      if ctxCancelled then some (ce, .error ctxErr) else none
  | .fromAvailable =>
      match ce.available with
      | [] => none
      | c :: rest =>
          let c' : CacheValue := { c with lastUsed := now }
          some ({ ce with available := rest, inUse := ce.inUse ++ [c'] }, .ok c'.val)
  | .fromCapacity =>
      match ce.capacity with
      | [] => none
      | _ :: restCap =>
          match createCacheValue { ce with capacity := restCap } with
          | (ce2, .error e) =>
              some ({ ce2 with capacity := ce2.capacity ++ [1] }, .error e)
          | (ce2, .ok c) =>
              let c' : CacheValue := { c with lastUsed := now }
              some ({ ce2 with inUse := ce2.inUse ++ [c'] }, .ok c'.val)

/-- `cacheValue.returnToCache` (pool_cache.go:336-339), state effect: the
cell re-enters its return channel (the entry's `available` queue) and
leaves the in-use set. -/
def returnToCache (cv : CacheValue) (ce : CacheEntry) : CacheEntry :=
  { ce with available := ce.available ++ [cv], inUse := ce.inUse.erase cv }

/-- The two observable steps of `returnToCache` (pool_cache.go:336-339) in
execution order: the deferred `cv.lock.Unlock()` runs after the send
`cv.returnChan <- cv`. -/
inductive RTCEvent where
  | sendToReturnChan
  | unlockCell
  deriving DecidableEq, Repr

def returnToCacheEvents : List RTCEvent :=
  [RTCEvent.sendToReturnChan, RTCEvent.unlockCell]

/-- The capacity-conservation invariant (spec §3 and §8.1): idle cells plus
cells in use plus free-creation tickets equal the cap. -/
def capacityInvariant (ce : CacheEntry) : Prop :=
  ce.available.length + ce.inUse.length + ce.capacity.length = ce.maxCapacity

instance (ce : CacheEntry) : Decidable (capacityInvariant ce) := by
  unfold capacityInvariant; infer_instance

/-- The drain phase of `getAvailableCapacity` (pool_cache.go:318-325):
receive tickets until the channel is empty, counting them. -/
def drainTicketsLoop : List Nat → Nat → Nat
  | [], acc => acc
  | _ :: rest, acc => drainTicketsLoop rest (acc + 1)

/-- The restore phase of `getAvailableCapacity` (pool_cache.go:329-331):
send `1` back `n` times onto the drained channel. -/
def refillTicketsLoop : Nat → List Nat → List Nat
  | 0, cap => cap
  | n + 1, cap => refillTicketsLoop n (cap ++ [1])

/-- `cacheEntry.getAvailableCapacity` (pool_cache.go:316-334):
drain–count–restore.  Returns the measured level and the channel contents
after the restore. -/
def getAvailableCapacity (capacity : List Nat) : Nat × List Nat :=
  let n := drainTicketsLoop capacity 0
  (n, refillTicketsLoop n [])

/-- `getValidValuesAndCleanupOthers` (pool_cache.go:294-314): drain the
available queue non-blockingly; a cell idle for at least the TTL is closed
and one ticket is sent to `capacity`; other cells are kept in drain order. -/
def getValidValuesAndCleanupOthers (now : Nat) :
    List CacheValue → List Nat → List Nat × List CacheValue
  | [], capacity => (capacity, [])
  | c :: rest, capacity =>
      if idleTTL ≤ now - c.lastUsed then
        getValidValuesAndCleanupOthers now rest (capacity ++ [1])
      else
        let p := getValidValuesAndCleanupOthers now rest capacity
        (p.1, c :: p.2)

/-- `cacheEntry.cleanupValues` (pool_cache.go:282-292): drain, re-enqueue
the survivors in drain order, and report whether the entry is fully idle at
full cap (`getAvailableCapacity() == maxCapacity`). -/
def cleanupValues (now : Nat) (ce : CacheEntry) : CacheEntry × Bool :=
  let p := getValidValuesAndCleanupOthers now ce.available ce.capacity
  let q := getAvailableCapacity p.1
  ({ ce with available := p.2, capacity := q.2 }, q.1 == ce.maxCapacity)

/-- Map assignment `c.entries[key] = entry` for a key already present. -/
def setEntry (pool : CachePool) (key : Nat) (e : CacheEntry) : CachePool :=
  ⟨(key, e) :: pool.entries.eraseP (fun p => p.1 == key)⟩

/-- Map assignment `c.entries[key] = entry` for a key not yet present
(pool_cache.go:102). -/
def installEntry (pool : CachePool) (key : Nat) (e : CacheEntry) : CachePool :=
  ⟨(key, e) :: pool.entries⟩

/-- The four results of `AddAndAcquire`/`Get` (value, release elided,
pre-existed/found flag, error), with the pool threaded through.  `value`
is Go's zero value `0` when `err` is set or nothing was found. -/
structure AcquireOutcome where
  pool : CachePool
  value : Nat
  flag : Bool
  err : Option Err

/-- `CachePool.AddAndAcquire` (pool_cache.go:66-115).  If the key is
present, delegate to the entry's `getValue` and report `pre-existed`.
Otherwise build a fresh entry whose `capacity` semaphore is pre-filled
with `maxEntries` tickets, install it, consume one ticket and invoke the
factory; on failure return the ticket and surface the error, leaving the
empty entry installed.  With `maxEntries = 0` the ticket consumption
`<-capacity` blocks forever (`none`). -/
def addAndAcquire (now : Nat) (ctxCancelled : Bool) (ctxErr : Err) (br : GetBranch)
    (pool : CachePool) (key : Nat) (createValue : Factory) (maxEntries : Nat) :
    Option AcquireOutcome :=
  match pool.entries.lookup key with
  | some e =>
      match getValue now ctxCancelled ctxErr br e with
      | none => none
      | some (e2, .ok v) => some ⟨setEntry pool key e2, v, true, none⟩
      | some (e2, .error er) => some ⟨setEntry pool key e2, 0, true, some er⟩
  | none =>
      if maxEntries = 0 then none
      else
        let entry0 : CacheEntry :=
          ⟨[], List.replicate maxEntries 1, maxEntries, createValue, 0, []⟩
        let entry1 : CacheEntry := { entry0 with capacity := entry0.capacity.tail }
        match createCacheValue entry1 with
        | (entry2, .error e) =>
            some ⟨installEntry pool key { entry2 with capacity := entry2.capacity ++ [1] },
              0, false, some e⟩
        | (entry2, .ok c) =>
            let c' : CacheValue := { c with lastUsed := now }
            some ⟨installEntry pool key { entry2 with inUse := entry2.inUse ++ [c'] },
              c'.val, false, none⟩

/-- `CachePool.Get` (pool_cache.go:117-141): read-locked lookup; absent key
reports `found = false` with no error; otherwise delegate to `getValue`. -/
def Get (now : Nat) (ctxCancelled : Bool) (ctxErr : Err) (br : GetBranch)
    (pool : CachePool) (key : Nat) : Option AcquireOutcome :=
  match pool.entries.lookup key with
  | none => some ⟨pool, 0, false, none⟩
  | some e =>
      match getValue now ctxCancelled ctxErr br e with
      | none => none
      | some (e2, .ok v) => some ⟨setEntry pool key e2, v, true, none⟩
      | some (e2, .error er) => some ⟨setEntry pool key e2, 0, true, some er⟩

/-- Release of an acquired cell at pool level: the cell's `returnChan` is
the current `available` queue of its entry, so `returnToCache` re-enqueues
it there.  (Cells whose return channel was detached by a reconfiguration
are outside this model; no claim exercises them.) -/
def poolReturn (pool : CachePool) (key : Nat) (cv : CacheValue) : CachePool :=
  match pool.entries.lookup key with
  | none => pool
  | some e => setEntry pool key (returnToCache cv e)

/-- Accumulator of the drain loop of `UpdateIfExists`
(pool_cache.go:187-207): the new queue and semaphore being built, the
count `j` of absorbed cells, the joined errors, and the number of
invocations of the new factory. -/
structure UpdateAcc where
  newAvailable : List CacheValue
  newCapacity : List Nat
  j : Nat
  errs : List Err
  calls : Nat

/-- The drain loop of `UpdateIfExists` (pool_cache.go:189-207) over the
cells received from the old available queue: once `j` cells have been
absorbed, further cells are closed and discarded; otherwise
`updateValue` (pool_cache.go:227-241) closes the old value and rebuilds
via the new factory — on failure one ticket is sent to the (already
swapped) new capacity semaphore and the error is joined, on success the
rebuilt cell is pushed onto the new queue. -/
def updateDrainLoop (factory : Factory) (maxEntries : Nat) :
    List CacheValue → UpdateAcc → UpdateAcc
  | [], acc => acc
  | cv :: rest, acc =>
      if maxEntries ≤ acc.j then
        updateDrainLoop factory maxEntries rest acc
      else
        match factory acc.calls with
        | .error e =>
            updateDrainLoop factory maxEntries rest
              { acc with newCapacity := acc.newCapacity ++ [1],
                         errs := acc.errs ++ [e], calls := acc.calls + 1 }
        | .ok v =>
            updateDrainLoop factory maxEntries rest
              { acc with newAvailable := acc.newAvailable ++ [{ cv with val := v }],
                         j := acc.j + 1, calls := acc.calls + 1 }

/-- `inUse := oldMaxCapacity - availableCapacity` (pool_cache.go:177). -/
def updateInUse (entry : CacheEntry) : Nat :=
  entry.maxCapacity - (getAvailableCapacity entry.capacity).1

/-- The pre-fill of the new capacity semaphore (pool_cache.go:179-183):
`maxEntries - inUse` tickets when that is positive, none otherwise
(`Nat` subtraction encodes the sign test). -/
def updatePrefill (maxEntries inUse : Nat) : List Nat :=
  List.replicate (maxEntries - inUse) 1

/-- The final accumulator of the drain loop, starting from an empty new
queue and the pre-filled new semaphore.  `returns` is the sequence in
which the cells currently held by callers are released onto the old
available queue while the loop runs (the loop blocks until it has
received `inUse` cells in total). -/
def updateDrainResult (entry : CacheEntry) (factory : Factory) (maxEntries : Nat)
    (returns : List CacheValue) : UpdateAcc :=
  updateDrainLoop factory maxEntries
    ((entry.available ++ returns).take (updateInUse entry))
    ⟨[], updatePrefill maxEntries (updateInUse entry), 0, [], 0⟩

/-- `CachePool.UpdateIfExists` (pool_cache.go:156-214) restricted to one
entry: swap in the new queue, semaphore, cap and factory, then run the
drain loop.  `none` models the deadlock in which fewer than `inUse` cells
are ever received from the old queue.  The result error follows
pool_cache.go:209-213: the joined error is returned only when every
rebuild failed and no cell was kept. -/
def updateEntryIfExists (entry : CacheEntry) (factory : Factory) (maxEntries : Nat)
    (returns : List CacheValue) : Option (CacheEntry × List Err) :=
  if (entry.available ++ returns).length < updateInUse entry then none
  else
    let acc := updateDrainResult entry factory maxEntries returns
    let entry' : CacheEntry :=
      ⟨acc.newAvailable, acc.newCapacity, maxEntries, factory, acc.calls,
        entry.inUse.filter (fun c => decide (c ∉ returns))⟩
    some (entry', if !acc.errs.isEmpty && acc.j == 0 then acc.errs else [])

/-- `CachePool.UpdateIfExists` (pool_cache.go:156-214) at pool level:
absent key reports `(false, nil)` without touching the pool. -/
def updateIfExists (pool : CachePool) (key : Nat) (factory : Factory)
    (maxEntries : Nat) (returns : List CacheValue) :
    Option (CachePool × Bool × List Err) :=
  match pool.entries.lookup key with
  | none => some (pool, false, [])
  | some e =>
      match updateEntryIfExists e factory maxEntries returns with
      | none => none
      | some (e2, errs) => some (setEntry pool key e2, true, errs)

/-! ## Supporting lemmas -/

theorem drainTicketsLoop_spec : ∀ (l : List Nat) (a : Nat),
    drainTicketsLoop l a = l.length + a := by
  intro l
  induction l with
  | nil => intro a; simp [drainTicketsLoop]
  | cons x rest ih =>
      intro a
      have h := ih (a + 1)
      simp only [drainTicketsLoop, h, List.length_cons]
      omega

theorem refillTicketsLoop_length : ∀ (n : Nat) (cap : List Nat),
    (refillTicketsLoop n cap).length = cap.length + n := by
  intro n
  induction n with
  | zero => intro cap; simp [refillTicketsLoop]
  | succ k ih =>
      intro cap
      have h := ih (cap ++ [1])
      simp only [refillTicketsLoop, h, List.length_append, List.length_singleton]
      omega

theorem lookup_cons_self (k : Nat) (e : CacheEntry) (l : List (Nat × CacheEntry)) :
    List.lookup k ((k, e) :: l) = some e := by
  simp [List.lookup]

theorem getValidValuesAndCleanupOthers_spec (now : Nat) : ∀ (l : List CacheValue) (cap : List Nat),
    (getValidValuesAndCleanupOthers now l cap).2
        = l.filter (fun c => decide (now - c.lastUsed < idleTTL))
  ∧ (getValidValuesAndCleanupOthers now l cap).1.length
        = cap.length + l.countP (fun c => decide (idleTTL ≤ now - c.lastUsed)) := by
  intro l
  induction l with
  | nil => intro cap; simp [getValidValuesAndCleanupOthers]
  | cons c rest ih =>
      intro cap
      by_cases hc : idleTTL ≤ now - c.lastUsed
      · have h := ih (cap ++ [1])
        constructor
        · simpa [getValidValuesAndCleanupOthers, hc, Nat.not_lt.mpr hc] using h.1
        · have h2 := h.2
          simp only [getValidValuesAndCleanupOthers, if_pos hc, List.length_append,
            List.length_singleton, List.countP_cons] at h2 ⊢
          simp [hc, h2]
          omega
      · have h := ih cap
        constructor
        · simpa [getValidValuesAndCleanupOthers, hc, Nat.lt_of_not_le hc] using h.1
        · have h2 := h.2
          simp only [getValidValuesAndCleanupOthers, if_neg hc, List.countP_cons] at h2 ⊢
          simp [hc, h2]

/-! ## Claim theorems -/

/-- Claim C8: `getAvailableCapacity` returns exactly the number of tickets
currently in the capacity semaphore, and the drain–count–restore leaves
the semaphore with the same number of tickets as before the call. -/
theorem getAvailableCapacity_level_preserved (capacity : List Nat) :
    (getAvailableCapacity capacity).1 = capacity.length
  ∧ (getAvailableCapacity capacity).2.length = capacity.length := by
  constructor
  · simp [getAvailableCapacity, drainTicketsLoop_spec]
  · simp [getAvailableCapacity, drainTicketsLoop_spec, refillTicketsLoop_length]

/-- Claim C6: `cleanupValues` drains the available queue; every drained
cell idle for at least the 30-minute TTL is closed and returns exactly one
ticket to the capacity semaphore; every other cell is kept, re-enqueued in
the order drained; the call returns `true` iff the capacity semaphore then
holds `maxCapacity` tickets.  The cap and the in-use cells are untouched. -/
theorem cleanupValues_spec (now : Nat) (ce : CacheEntry) :
    (cleanupValues now ce).1.available
        = ce.available.filter (fun c => decide (now - c.lastUsed < idleTTL))
  ∧ (cleanupValues now ce).1.capacity.length
        = ce.capacity.length
            + ce.available.countP (fun c => decide (idleTTL ≤ now - c.lastUsed))
  ∧ (((cleanupValues now ce).2 = true) ↔
        (cleanupValues now ce).1.capacity.length = ce.maxCapacity)
  ∧ (cleanupValues now ce).1.maxCapacity = ce.maxCapacity
  ∧ (cleanupValues now ce).1.inUse = ce.inUse := by
  have h := getValidValuesAndCleanupOthers_spec now ce.available ce.capacity
  have hlen : (cleanupValues now ce).1.capacity.length
      = ce.capacity.length
          + ce.available.countP (fun c => decide (idleTTL ≤ now - c.lastUsed)) := by
    simp only [cleanupValues, getAvailableCapacity, drainTicketsLoop_spec,
      refillTicketsLoop_length]
    simpa using h.2
  refine ⟨?_, hlen, ?_, rfl, rfl⟩
  · simpa [cleanupValues] using h.1
  · have hcount : (cleanupValues now ce).2
        = (drainTicketsLoop (getValidValuesAndCleanupOthers now ce.available ce.capacity).1 0
            == ce.maxCapacity) := rfl
    have hd : drainTicketsLoop (getValidValuesAndCleanupOthers now ce.available ce.capacity).1 0
        = (cleanupValues now ce).1.capacity.length := by
      rw [drainTicketsLoop_spec, hlen, h.2]
      omega
    rw [hcount, hd]
    exact beq_iff_eq

/-- Claim C7: in `returnToCache` the cell is sent onto its bound return
channel strictly before the exclusivity lock is released, and under the
capacity-conservation invariant the available queue of an entry with a
cell in use holds fewer than `maxCapacity` cells, so the send onto the
bounded queue cannot block. -/
theorem returnToCache_send_before_unlock :
    returnToCacheEvents = [RTCEvent.sendToReturnChan, RTCEvent.unlockCell]
  ∧ returnToCacheEvents.findIdx (fun ev => ev == RTCEvent.sendToReturnChan)
      < returnToCacheEvents.findIdx (fun ev => ev == RTCEvent.unlockCell)
  ∧ (∀ (ce : CacheEntry) (cv : CacheValue), capacityInvariant ce → cv ∈ ce.inUse →
        ce.available.length < ce.maxCapacity) := by
  refine ⟨rfl, by decide, ?_⟩
  intro ce cv hinv hmem
  unfold capacityInvariant at hinv
  have hpos : 0 < ce.inUse.length := List.length_pos_of_mem hmem
  omega

/-- Witness for C7 at a concrete entry: one idle cell, one in use, one
ticket, cap three. -/
theorem returnToCache_send_before_unlock_witness :
    (⟨[⟨5, 0⟩], [1], 3, fun _ => Except.ok 0, 0, [⟨6, 0⟩]⟩ : CacheEntry).available.length < 3 :=
  returnToCache_send_before_unlock.2.2
    ⟨[⟨5, 0⟩], [1], 3, fun _ => Except.ok 0, 0, [⟨6, 0⟩]⟩ ⟨6, 0⟩ (by decide) (by decide)

/-- Claim C2: in `getValue`, when the capacity alternative fires and the
factory fails, exactly the one consumed ticket is put back (the semaphore
ends one shorter at the front and one longer at the back, same level) and
the factory error is returned, everything else unchanged; when the
context-cancellation alternative fires the call fails with the context
error and the entry — in particular its capacity semaphore — is unchanged. -/
theorem getValue_factory_failure_and_cancellation (now ctxErr e : Nat) (ce : CacheEntry) :
    (∀ t rest, ce.capacity = t :: rest →
        ce.createValue ce.calls = Except.error e →
        getValue now false ctxErr GetBranch.fromCapacity ce =
          some ({ ce with capacity := rest ++ [1], calls := ce.calls + 1 },
            Except.error e))
  ∧ getValue now true ctxErr GetBranch.ctxDone ce = some (ce, Except.error ctxErr) := by
  constructor
  · intro t rest hcap hf
    simp [getValue, hcap, createCacheValue, hf]
  · simp [getValue]

/-- Witness for C2: an entry with one ticket and an always-failing factory;
both error paths evaluated concretely. -/
theorem getValue_factory_failure_and_cancellation_witness :
    getValue 0 false 7 GetBranch.fromCapacity
        ⟨[], [1], 1, fun _ => Except.error 5, 0, []⟩
      = some (⟨[], [1], 1, fun _ => Except.error 5, 1, []⟩, Except.error 5)
  ∧ getValue 0 true 7 GetBranch.ctxDone ⟨[], [1], 1, fun _ => Except.error 5, 0, []⟩
      = some (⟨[], [1], 1, fun _ => Except.error 5, 0, []⟩, Except.error 7) := by
  have h := getValue_factory_failure_and_cancellation 0 7 5
    ⟨[], [1], 1, fun _ => Except.error 5, 0, []⟩
  exact ⟨h.1 1 [] rfl rfl, h.2⟩

/-- Claim C1 (failing input): `UpdateIfExists` does not preserve capacity
conservation.  Start from an entry at cap 3 with no idle cell, no ticket
and three cells in use (conserved: 0+3+0 = 3) and reconfigure to cap 2
with a factory that fails on the first rebuild and succeeds afterwards.
The loop returns one ticket for the failed rebuild and still absorbs two
cells, so the quiescent entry ends with 2 idle + 0 in use + 1 ticket = 3
at `maxCapacity = 2`. -/
theorem updateIfExists_capacity_conservation_violation :
    capacityInvariant
      ⟨[], [], 3, fun n => if n == 0 then Except.error 9 else Except.ok (60 + n), 0,
        [⟨1, 0⟩, ⟨2, 0⟩, ⟨3, 0⟩]⟩
  ∧ (updateEntryIfExists
        ⟨[], [], 3, fun n => if n == 0 then Except.error 9 else Except.ok (60 + n), 0,
          [⟨1, 0⟩, ⟨2, 0⟩, ⟨3, 0⟩]⟩
        (fun n => if n == 0 then Except.error 9 else Except.ok (60 + n)) 2
        [⟨1, 0⟩, ⟨2, 0⟩, ⟨3, 0⟩]).map
      (fun p => (p.1.available.length + p.1.inUse.length + p.1.capacity.length,
                 p.1.maxCapacity))
      = some (3, 2) := by
  exact ⟨by decide, rfl⟩

/-- Claim C4 (counterexample): an `UpdateIfExists` run in which one cell
rebuild fails (the drain loop accumulates the error 7) and one succeeds
returns `nil` to the caller — the accumulated error is not surfaced. -/
theorem updateIfExists_drops_partial_error :
    (updateEntryIfExists ⟨[], [], 2, fun n => if n == 0 then Except.error 7 else Except.ok 40,
          0, [⟨1, 0⟩, ⟨2, 0⟩]⟩
        (fun n => if n == 0 then Except.error 7 else Except.ok 40) 2
        [⟨1, 0⟩, ⟨2, 0⟩]).map Prod.snd = some []
  ∧ (updateDrainResult ⟨[], [], 2, fun n => if n == 0 then Except.error 7 else Except.ok 40,
          0, [⟨1, 0⟩, ⟨2, 0⟩]⟩
        (fun n => if n == 0 then Except.error 7 else Except.ok 40) 2
        [⟨1, 0⟩, ⟨2, 0⟩]).errs = [7] := by
  exact ⟨rfl, rfl⟩

/-- Claim C9 (counterexample): with cap 2, after `AddAndAcquire` of value 7
and its release, the capacity alternative of the select in `Get` is ready
(one ticket is free), and if the select resolves to it the factory runs
again and `Get` hands back the fresh value 17, not the released cell 7. -/
theorem roundTrip_not_always_same_cell :
    ((addAndAcquire 5 false 0 GetBranch.fromCapacity ⟨[]⟩ 0
        (fun n => Except.ok (10 * n + 7)) 2).map
      (fun o => (o.value, o.flag, o.err)) = some (7, false, none))
  ∧ ((addAndAcquire 5 false 0 GetBranch.fromCapacity ⟨[]⟩ 0
        (fun n => Except.ok (10 * n + 7)) 2).map
      (fun o => ((poolReturn o.pool 0 ⟨7, 5⟩).entries.lookup 0).map
        (fun e2 => branchReady false e2 GetBranch.fromCapacity)) = some (some true))
  ∧ ((addAndAcquire 5 false 0 GetBranch.fromCapacity ⟨[]⟩ 0
        (fun n => Except.ok (10 * n + 7)) 2).map
      (fun o => (Get 6 false 0 GetBranch.fromCapacity (poolReturn o.pool 0 ⟨7, 5⟩) 0).map
        (fun o2 => (o2.value, o2.flag))) = some (some (17, true)))
  ∧ (17 : Nat) ≠ 7 := by
  exact ⟨rfl, rfl, rfl, by decide⟩

theorem updateEntryIfExists_inversion (entry : CacheEntry) (f : Factory) (m : Nat)
    (returns : List CacheValue) (out : CacheEntry × List Err)
    (h : updateEntryIfExists entry f m returns = some out) :
    out.1 = ⟨(updateDrainResult entry f m returns).newAvailable,
             (updateDrainResult entry f m returns).newCapacity, m, f,
             (updateDrainResult entry f m returns).calls,
             entry.inUse.filter (fun c => decide (c ∉ returns))⟩
  ∧ out.2 = (if !(updateDrainResult entry f m returns).errs.isEmpty
                && (updateDrainResult entry f m returns).j == 0
             then (updateDrainResult entry f m returns).errs else []) := by
  unfold updateEntryIfExists at h
  split at h
  · exact absurd h (by simp)
  · have h2 := Option.some.inj h
    constructor
    · rw [← h2]
    · rw [← h2]

theorem updateDrainLoop_ticket_per_error (f : Factory) (m : Nat) :
    ∀ (cells : List CacheValue) (acc : UpdateAcc),
    (updateDrainLoop f m cells acc).newCapacity.length + acc.errs.length
      = (updateDrainLoop f m cells acc).errs.length + acc.newCapacity.length := by
  intro cells
  induction cells with
  | nil => intro acc; simp only [updateDrainLoop]; omega
  | cons cv rest ih =>
      intro acc
      by_cases hj : m ≤ acc.j
      · simpa [updateDrainLoop, hj] using ih acc
      · cases hf : f acc.calls with
        | error e =>
            have h := ih { acc with newCapacity := acc.newCapacity ++ [1],
                                    errs := acc.errs ++ [e], calls := acc.calls + 1 }
            simp only [updateDrainLoop, if_neg hj, hf]
            simp only [List.length_append, List.length_singleton] at h ⊢
            omega
        | ok v =>
            have h := ih { acc with
              newAvailable := acc.newAvailable ++ [{ cv with val := v }],
              j := acc.j + 1, calls := acc.calls + 1 }
            simpa [updateDrainLoop, if_neg hj, hf] using h

theorem updateDrainLoop_j_tracks_available (f : Factory) (m : Nat) :
    ∀ (cells : List CacheValue) (acc : UpdateAcc),
    acc.newAvailable.length = acc.j → acc.j ≤ m →
    (updateDrainLoop f m cells acc).newAvailable.length = (updateDrainLoop f m cells acc).j
  ∧ (updateDrainLoop f m cells acc).j ≤ m := by
  intro cells
  induction cells with
  | nil => intro acc h1 h2; simpa [updateDrainLoop] using ⟨h1, h2⟩
  | cons cv rest ih =>
      intro acc h1 h2
      by_cases hj : m ≤ acc.j
      · simpa [updateDrainLoop, hj] using ih acc h1 h2
      · cases hf : f acc.calls with
        | error e =>
            have h := ih { acc with newCapacity := acc.newCapacity ++ [1],
                                    errs := acc.errs ++ [e], calls := acc.calls + 1 }
              h1 h2
            simpa [updateDrainLoop, if_neg hj, hf] using h
        | ok v =>
            have h := ih { acc with
                newAvailable := acc.newAvailable ++ [{ cv with val := v }],
                j := acc.j + 1, calls := acc.calls + 1 }
              (by show (acc.newAvailable ++ [{ cv with val := v }]).length = acc.j + 1
                  simp [h1])
              (by show acc.j + 1 ≤ m
                  omega)
            simpa [updateDrainLoop, if_neg hj, hf] using h

/-- Claim C4 (amended): during `UpdateIfExists`, each cell whose rebuild
fails sends exactly one ticket to the new (post-swap) capacity semaphore
and has its error joined into the accumulator; after the loop the joined
error is returned only when every rebuild failed and no cell was kept
(`j = 0`) — otherwise the call returns nil and the accumulated errors are
discarded (the pool remains usable). -/
theorem updateIfExists_error_accounting :
    (∀ (f : Factory) (m : Nat) (cells : List CacheValue) (acc : UpdateAcc),
        (updateDrainLoop f m cells acc).newCapacity.length + acc.errs.length
          = (updateDrainLoop f m cells acc).errs.length + acc.newCapacity.length)
  ∧ (∀ (entry : CacheEntry) (f : Factory) (m : Nat) (returns : List CacheValue)
        (out : CacheEntry × List Err),
        updateEntryIfExists entry f m returns = some out →
        out.2 = (if !(updateDrainResult entry f m returns).errs.isEmpty
                    && (updateDrainResult entry f m returns).j == 0
                 then (updateDrainResult entry f m returns).errs else [])) := by
  exact ⟨updateDrainLoop_ticket_per_error,
    fun entry f m returns out h => (updateEntryIfExists_inversion entry f m returns out h).2⟩

/-- Witness for C4 at the concrete shrink-with-failure run: cap 2 entry,
two cells returned, first rebuild fails with error 7, second succeeds;
tickets grew by exactly the error count and the result error is nil. -/
theorem updateIfExists_error_accounting_witness :
    (updateDrainLoop (fun n => if n == 0 then Except.error 7 else Except.ok 40) 2
        [⟨1, 0⟩, ⟨2, 0⟩] ⟨[], [], 0, [], 0⟩).newCapacity.length + ([] : List Err).length
      = (updateDrainLoop (fun n => if n == 0 then Except.error 7 else Except.ok 40) 2
        [⟨1, 0⟩, ⟨2, 0⟩] ⟨[], [], 0, [], 0⟩).errs.length + ([] : List Nat).length
  ∧ ([] : List Err)
      = (if !(updateDrainResult
                ⟨[], [], 2, fun n => if n == 0 then Except.error 7 else Except.ok 40,
                  0, [⟨1, 0⟩, ⟨2, 0⟩]⟩
                (fun n => if n == 0 then Except.error 7 else Except.ok 40) 2
                [⟨1, 0⟩, ⟨2, 0⟩]).errs.isEmpty
            && (updateDrainResult
                ⟨[], [], 2, fun n => if n == 0 then Except.error 7 else Except.ok 40,
                  0, [⟨1, 0⟩, ⟨2, 0⟩]⟩
                (fun n => if n == 0 then Except.error 7 else Except.ok 40) 2
                [⟨1, 0⟩, ⟨2, 0⟩]).j == 0
         then (updateDrainResult
                ⟨[], [], 2, fun n => if n == 0 then Except.error 7 else Except.ok 40,
                  0, [⟨1, 0⟩, ⟨2, 0⟩]⟩
                (fun n => if n == 0 then Except.error 7 else Except.ok 40) 2
                [⟨1, 0⟩, ⟨2, 0⟩]).errs
         else []) := by
  constructor
  · exact updateIfExists_error_accounting.1
      (fun n => if n == 0 then Except.error 7 else Except.ok 40) 2
      [⟨1, 0⟩, ⟨2, 0⟩] ⟨[], [], 0, [], 0⟩
  · exact updateIfExists_error_accounting.2
      ⟨[], [], 2, fun n => if n == 0 then Except.error 7 else Except.ok 40,
        0, [⟨1, 0⟩, ⟨2, 0⟩]⟩
      (fun n => if n == 0 then Except.error 7 else Except.ok 40) 2
      [⟨1, 0⟩, ⟨2, 0⟩]
      (⟨[⟨40, 0⟩], [1], 2,
        fun n => if n == 0 then Except.error 7 else Except.ok 40, 2, []⟩, ([] : List Err))
      rfl

/-- Claim C5: `UpdateIfExists` with new cap `m` pre-fills exactly
`m - inUse` tickets into the new capacity semaphore when that difference
is positive and zero tickets otherwise; once `m` cells have been absorbed
the drain loop leaves the accumulator untouched (every further drained
cell is closed and discarded, never rebuilt), so the new available queue
never holds more than `m` cells. -/
theorem updateIfExists_resize_semantics (m : Nat) :
    (∀ k, (updatePrefill m k).length = m - k)
  ∧ (∀ k, m ≤ k → updatePrefill m k = [])
  ∧ (∀ (f : Factory) (cells : List CacheValue) (acc : UpdateAcc), m ≤ acc.j →
        updateDrainLoop f m cells acc = acc)
  ∧ (∀ (entry : CacheEntry) (f : Factory) (returns : List CacheValue)
        (out : CacheEntry × List Err),
        updateEntryIfExists entry f m returns = some out →
        out.1.available.length ≤ m) := by
  refine ⟨?_, ?_, ?_, ?_⟩
  · intro k; simp [updatePrefill]
  · intro k hk; simp [updatePrefill, Nat.sub_eq_zero_of_le hk]
  · intro f cells
    induction cells with
    | nil => intro acc _; rfl
    | cons cv rest ih =>
        intro acc hj
        simp only [updateDrainLoop, if_pos hj]
        exact ih acc hj
  · intro entry f returns out h
    have hinv := (updateEntryIfExists_inversion entry f m returns out h).1
    have htrack := updateDrainLoop_j_tracks_available f m
      ((entry.available ++ returns).take (updateInUse entry))
      ⟨[], updatePrefill m (updateInUse entry), 0, [], 0⟩ rfl (Nat.zero_le m)
    have hres : out.1.available = (updateDrainResult entry f m returns).newAvailable := by
      rw [hinv]
    rw [hres]
    have h2 := htrack.1
    have h3 := htrack.2
    simp only [updateDrainResult]
    omega

/-- Witness for C5 at `m = 2`: shrink from cap 3 with three returned cells
and an always-succeeding factory — zero tickets pre-filled and at most two
cells absorbed. -/
theorem updateIfExists_resize_semantics_witness :
    updatePrefill 2 3 = []
  ∧ updateDrainLoop (fun n => Except.ok n) 2 [⟨1, 0⟩]
      ⟨[⟨8, 0⟩, ⟨9, 0⟩], [], 2, [], 2⟩ = ⟨[⟨8, 0⟩, ⟨9, 0⟩], [], 2, [], 2⟩
  ∧ (⟨[⟨0, 0⟩, ⟨1, 0⟩], [], 2, fun n => Except.ok n, 2,
        []⟩ : CacheEntry).available.length ≤ 2 := by
  refine ⟨(updateIfExists_resize_semantics 2).2.1 3 (by decide),
    (updateIfExists_resize_semantics 2).2.2.1 (fun n => Except.ok n) [⟨1, 0⟩]
      ⟨[⟨8, 0⟩, ⟨9, 0⟩], [], 2, [], 2⟩ (by decide),
    (updateIfExists_resize_semantics 2).2.2.2
      ⟨[], [], 3, fun n => Except.ok n, 0, [⟨1, 0⟩, ⟨2, 0⟩, ⟨3, 0⟩]⟩
      (fun n => Except.ok n) [⟨1, 0⟩, ⟨2, 0⟩, ⟨3, 0⟩]
      (⟨[⟨0, 0⟩, ⟨1, 0⟩], [], 2, fun n => Except.ok n, 2, []⟩, ([] : List Err))
      rfl⟩

theorem getValue_capacity_success (now cerr : Nat) (ce : CacheEntry) (w t : Nat)
    (rest : List Nat) (hcap : ce.capacity = t :: rest)
    (hf : ce.createValue ce.calls = Except.ok w) :
    getValue now false cerr GetBranch.fromCapacity ce =
      some ({ ce with
                capacity := rest,
                calls := ce.calls + 1,
                inUse := ce.inUse ++ [⟨w, now⟩] }, Except.ok w) := by
  simp [getValue, hcap, createCacheValue, hf]

/-- Claim C3: `AddAndAcquire` on an absent key installs a fresh entry whose
capacity semaphore was pre-filled with `cap` tickets of which exactly one
is consumed, and invokes the factory: on success the new cell is acquired
and returned with pre-existed `false`; on failure the ticket is returned
(the semaphore is back to `cap` tickets), the error is surfaced with
pre-existed `false`, the empty entry stays installed, and a subsequent
call whose factory invocation succeeds acquires a value. -/
theorem addAndAcquire_new_entry_semantics (now : Nat) (cc : Bool) (cerr : Err)
    (br : GetBranch) (pool : CachePool) (key : Nat) (f : Factory) (m : Nat)
    (hk : pool.entries.lookup key = none) (hm : 1 ≤ m) :
    (∀ v, f 0 = Except.ok v →
        addAndAcquire now cc cerr br pool key f m
          = some ⟨installEntry pool key
                ⟨[], (List.replicate m 1).tail, m, f, 1, [⟨v, now⟩]⟩,
              v, false, none⟩
      ∧ ((List.replicate m 1).tail).length + 1 = m)
  ∧ (∀ e, f 0 = Except.error e →
        addAndAcquire now cc cerr br pool key f m
          = some ⟨installEntry pool key
                ⟨[], (List.replicate m 1).tail ++ [1], m, f, 1, []⟩,
              0, false, some e⟩
      ∧ ((List.replicate m 1).tail ++ [1]).length = m
      ∧ (∀ w (g : Factory) (m2 now2 : Nat), f 1 = Except.ok w →
            (addAndAcquire now2 false cerr GetBranch.fromCapacity
                (installEntry pool key
                  ⟨[], (List.replicate m 1).tail ++ [1], m, f, 1, []⟩)
                key g m2).map (fun o => (o.value, o.flag, o.err))
              = some (w, true, none))) := by
  obtain ⟨m', rfl⟩ : ∃ m', m = m' + 1 := ⟨m - 1, by omega⟩
  constructor
  · intro v hf
    constructor
    · simp [addAndAcquire, hk, createCacheValue, hf]
    · simp
  · intro e hf
    refine ⟨?_, ?_, ?_⟩
    · simp [addAndAcquire, hk, createCacheValue, hf]
    · simp
    · intro w g m2 now2 hf2
      cases m' with
      | zero =>
          simp [addAndAcquire, installEntry, List.lookup, getValue, createCacheValue, hf2]
      | succ k =>
          simp [addAndAcquire, installEntry, List.lookup, getValue, createCacheValue,
            List.replicate_succ, hf2]

/-- Witness for C3 at cap 2 on the empty pool: a factory that fails on its
first invocation and succeeds on the second, plus a factory that always
succeeds; the supplied factory of the retry call is ignored. -/
theorem addAndAcquire_new_entry_semantics_witness :
    (addAndAcquire 9 false 0 GetBranch.ctxDone ⟨[]⟩ 0
        (fun n => Except.ok (n + 3)) 2
      = some ⟨installEntry ⟨[]⟩ 0
            ⟨[], (List.replicate 2 1).tail, 2, fun n => Except.ok (n + 3), 1, [⟨3, 9⟩]⟩,
          3, false, none⟩)
  ∧ (addAndAcquire 9 false 0 GetBranch.ctxDone ⟨[]⟩ 0
        (fun n => if n == 0 then Except.error 4 else Except.ok 30) 2
      = some ⟨installEntry ⟨[]⟩ 0
            ⟨[], (List.replicate 2 1).tail ++ [1], 2,
              fun n => if n == 0 then Except.error 4 else Except.ok 30, 1, []⟩,
          0, false, some 4⟩)
  ∧ ((List.replicate 2 1).tail ++ [1]).length = 2
  ∧ ((addAndAcquire 11 false 0 GetBranch.fromCapacity
        (installEntry ⟨[]⟩ 0
          ⟨[], (List.replicate 2 1).tail ++ [1], 2,
            fun n => if n == 0 then Except.error 4 else Except.ok 30, 1, []⟩)
        0 (fun _ => Except.error 99) 7).map (fun o => (o.value, o.flag, o.err))
      = some (30, true, none)) := by
  have h := (addAndAcquire_new_entry_semantics 9 false 0 GetBranch.ctxDone ⟨[]⟩ 0
      (fun n => if n == 0 then Except.error 4 else Except.ok 30) 2 rfl (by decide)).2
      4 rfl
  have h2 := (addAndAcquire_new_entry_semantics 9 false 0 GetBranch.ctxDone ⟨[]⟩ 0
      (fun n => Except.ok (n + 3)) 2 rfl (by decide)).1 3 rfl
  exact ⟨h2.1, h.1, h.2.1, h.2.2 30 (fun _ => Except.error 99) 7 11 rfl⟩

/-- Claim C9 (amended): for a fresh key, `AddAndAcquire(k, f, n)` followed
by release of the returned cell followed immediately by `Get(k)` hands
back the released cell whenever the select in `getValue` resolves to the
idle-cell alternative; when `n = 1` that is the only ready alternative
(the capacity semaphore is empty and the context live), so `Get` always
returns the same cell.  (For `n ≥ 2` the capacity alternative is also
ready and may legally construct a fresh value instead.) -/
theorem roundTrip_same_cell_when_available_chosen (pool : CachePool)
    (key now now2 cerr : Nat) (f : Factory) (v m : Nat) (br : GetBranch)
    (hk : pool.entries.lookup key = none) (hm : 1 ≤ m) (hf : f 0 = Except.ok v) :
    ((addAndAcquire now false cerr br pool key f m).map
        (fun o => (o.value, o.flag, o.err)) = some (v, false, none))
  ∧ (∀ o, addAndAcquire now false cerr br pool key f m = some o →
      ((Get now2 false cerr GetBranch.fromAvailable (poolReturn o.pool key ⟨v, now⟩) key).map
          (fun o2 => (o2.value, o2.flag, o2.err)) = some (v, true, none))
    ∧ (m = 1 → ∀ e2, (poolReturn o.pool key ⟨v, now⟩).entries.lookup key = some e2 →
        ∀ br2, branchReady false e2 br2 = true → br2 = GetBranch.fromAvailable)) := by
  obtain ⟨m', rfl⟩ : ∃ m', m = m' + 1 := ⟨m - 1, by omega⟩
  have hadd : addAndAcquire now false cerr br pool key f (m' + 1)
      = some ⟨installEntry pool key
            ⟨[], List.replicate m' 1, m' + 1, f, 1, [⟨v, now⟩]⟩, v, false, none⟩ := by
    simp [addAndAcquire, hk, createCacheValue, hf, List.replicate_succ]
  refine ⟨by rw [hadd]; rfl, ?_⟩
  intro o ho
  have hpool : o.pool = installEntry pool key
      ⟨[], List.replicate m' 1, m' + 1, f, 1, [⟨v, now⟩]⟩ := by
    rw [hadd] at ho
    cases ho
    rfl
  have hret : poolReturn o.pool key ⟨v, now⟩
      = setEntry o.pool key ⟨[⟨v, now⟩], List.replicate m' 1, m' + 1, f, 1, []⟩ := by
    rw [hpool]
    simp [poolReturn, installEntry, List.lookup, returnToCache]
  constructor
  · rw [hret]
    simp [Get, setEntry, List.lookup, getValue]
  · intro hm1 e2 he2 br2 hbr
    rw [hret, hpool] at he2
    have hm0 : m' = 0 := by omega
    subst hm0
    simp [setEntry, installEntry, List.lookup] at he2
    cases br2 with
    | ctxDone => rw [← he2] at hbr; simp [branchReady] at hbr
    | fromAvailable => rfl
    | fromCapacity => rw [← he2] at hbr; simp [branchReady] at hbr

/-- Witness for C9 at cap 1 on the empty pool with the factory
`n ↦ 10n + 7`: the released cell 7 is what `Get` returns. -/
theorem roundTrip_same_cell_witness :
    ((addAndAcquire 5 false 0 GetBranch.ctxDone ⟨[]⟩ 0
        (fun n => Except.ok (10 * n + 7)) 1).map
      (fun o => (o.value, o.flag, o.err)) = some (7, false, none))
  ∧ ((Get 6 false 0 GetBranch.fromAvailable
        (poolReturn (installEntry ⟨[]⟩ 0
          ⟨[], [], 1, fun n => Except.ok (10 * n + 7), 1, [⟨7, 5⟩]⟩) 0 ⟨7, 5⟩) 0).map
      (fun o2 => (o2.value, o2.flag, o2.err)) = some (7, true, none)) := by
  have h := roundTrip_same_cell_when_available_chosen ⟨[]⟩ 0 5 6 0
    (fun n => Except.ok (10 * n + 7)) 7 1 GetBranch.ctxDone rfl (by decide) rfl
  exact ⟨h.1,
    (h.2 ⟨installEntry ⟨[]⟩ 0
        ⟨[], [], 1, fun n => Except.ok (10 * n + 7), 1, [⟨7, 5⟩]⟩, 7, false, none⟩ rfl).1⟩

/-- Claim C10: `AddAndAcquire` on a key whose entry already exists ignores
the supplied factory and cap entirely — the result is the same for any
such arguments, the call delegates exactly to `getValue` on the stored
entry with pre-existed reported `true`, and `getValue` leaves the stored
factory and cap unchanged (only `UpdateIfExists` replaces them). -/
theorem addAndAcquire_existing_ignores_arguments (now : Nat) (cc : Bool)
    (cerr : Err) (br : GetBranch) (pool : CachePool) (key : Nat) (e : CacheEntry)
    (f g : Factory) (m m2 : Nat) (h : pool.entries.lookup key = some e) :
    addAndAcquire now cc cerr br pool key f m
      = addAndAcquire now cc cerr br pool key g m2
  ∧ addAndAcquire now cc cerr br pool key f m
      = (match getValue now cc cerr br e with
         | none => none
         | some (e2, .ok v) => some ⟨setEntry pool key e2, v, true, none⟩
         | some (e2, .error er) => some ⟨setEntry pool key e2, 0, true, some er⟩)
  ∧ (∀ e2 r, getValue now cc cerr br e = some (e2, r) →
        e2.createValue = e.createValue ∧ e2.maxCapacity = e.maxCapacity) := by
  refine ⟨?_, ?_, ?_⟩
  · simp only [addAndAcquire, h]
  · simp only [addAndAcquire, h]
  · intro e2 r hgv
    cases br with
    | ctxDone =>
        by_cases hcc : cc = true
        · subst hcc
          simp [getValue] at hgv
          rw [← hgv.1]
          exact ⟨rfl, rfl⟩
        · have hccf : cc = false := by revert hcc; cases cc <;> simp
          subst hccf
          simp [getValue] at hgv
    | fromAvailable =>
        cases hav : e.available with
        | nil => simp [getValue, hav] at hgv
        | cons c rest =>
            simp [getValue, hav] at hgv
            rw [← hgv.1]
            exact ⟨rfl, rfl⟩
    | fromCapacity =>
        cases hcap : e.capacity with
        | nil => simp [getValue, hcap] at hgv
        | cons t rest =>
            cases hres : e.createValue e.calls with
            | error er =>
                simp [getValue, hcap, createCacheValue, hres] at hgv
                rw [← hgv.1]
                exact ⟨rfl, rfl⟩
            | ok v =>
                simp [getValue, hcap, createCacheValue, hres] at hgv
                rw [← hgv.1]
                exact ⟨rfl, rfl⟩

/-- Witness for C10: a pool holding key 3; the call result is identical
for two different supplied factories and caps, and the stored factory and
cap survive the `getValue` delegation. -/
theorem addAndAcquire_existing_ignores_arguments_witness :
    addAndAcquire 4 false 0 GetBranch.fromAvailable
        ⟨[(3, ⟨[⟨4, 0⟩], [1], 2, fun _ => Except.ok 8, 0, []⟩)]⟩ 3
        (fun _ => Except.error 1) 9
      = addAndAcquire 4 false 0 GetBranch.fromAvailable
        ⟨[(3, ⟨[⟨4, 0⟩], [1], 2, fun _ => Except.ok 8, 0, []⟩)]⟩ 3
        (fun _ => Except.ok 2) 100
  ∧ ((⟨[], [1], 2, fun _ => Except.ok 8, 0, [⟨4, 4⟩]⟩ : CacheEntry).createValue
        = (⟨[⟨4, 0⟩], [1], 2, fun _ => Except.ok 8, 0, []⟩ : CacheEntry).createValue
    ∧ (⟨[], [1], 2, fun _ => Except.ok 8, 0, [⟨4, 4⟩]⟩ : CacheEntry).maxCapacity
        = (⟨[⟨4, 0⟩], [1], 2, fun _ => Except.ok 8, 0, []⟩ : CacheEntry).maxCapacity) := by
  have h := addAndAcquire_existing_ignores_arguments 4 false 0 GetBranch.fromAvailable
    ⟨[(3, ⟨[⟨4, 0⟩], [1], 2, fun _ => Except.ok 8, 0, []⟩)]⟩ 3
    ⟨[⟨4, 0⟩], [1], 2, fun _ => Except.ok 8, 0, []⟩
    (fun _ => Except.error 1) (fun _ => Except.ok 2) 9 100 rfl
  exact ⟨h.1, h.2.2 ⟨[], [1], 2, fun _ => Except.ok 8, 0, [⟨4, 4⟩]⟩ (Except.ok 4) rfl⟩
